import Mathlib

/-!
Verification of the cube-alchemy AdventureWorks dashboard
(`src/examples/adventureworks/streamlit_adventureworks.py`) and of the
multidimensional query engine it drives.  The dashboard's own helpers
(`_clean_currency`, `apply_filters`, metric/query definitions) are embedded
from the source; the `Hypercube` engine is not part of this repository's
sources, so its operations are modelled from the specification
(sections 3, 4.2, 4.3, 4.4 of the spec), as the doc comments note.
-/

/-- Cell values of a table: strings, rationals (standing for Python numbers),
or null (NaN / None). -/
inductive Value where
  | str : String → Value
  | num : ℚ → Value
  | null : Value
deriving DecidableEq

/-- A row is an association list from column name to value. -/
abbrev Row := List (String × Value)

/-- A table is a list of rows. -/
abbrev Table := List Row

/-- Look up a column in a row; missing columns read as null. -/
def getV : Row → String → Value
  | [], _ => Value.null
  | (c, v) :: rest, c0 => if c = c0 then v else getV rest c0

/-- Look up a name in a registry (first match wins). -/
def lookupName {α : Type} (n : String) : List (String × α) → Option α
  | [] => none
  | (k, v) :: rest => if k = n then some v else lookupName n rest

/-- Numeric projection of a value. -/
def toQ : Value → Option ℚ
  | Value.num q => some q
  | _ => none

/-- Row-level expressions of metrics: column references, literals and
arithmetic, parsed from strings such as `[Unit Price] * [Quantity]`. -/
inductive RowExpr where
  | col : String → RowExpr
  | lit : ℚ → RowExpr
  | add : RowExpr → RowExpr → RowExpr
  | sub : RowExpr → RowExpr → RowExpr
  | mul : RowExpr → RowExpr → RowExpr
  | div : RowExpr → RowExpr → RowExpr
deriving DecidableEq

/-- Column names referenced by a row-level expression. -/
def RowExpr.refs : RowExpr → List String
  | .col c => [c]
  | .lit _ => []
  | .add a b => a.refs ++ b.refs
  | .sub a b => a.refs ++ b.refs
  | .mul a b => a.refs ++ b.refs
  | .div a b => a.refs ++ b.refs

/-- Apply a numeric binary operation; any non-numeric operand yields null. -/
def numBin (f : ℚ → ℚ → ℚ) : Value → Value → Value
  | Value.num a, Value.num b => Value.num (f a b)
  | _, _ => Value.null

/-- Evaluate a row-level expression on one source row.  Undefined arithmetic
(null operand, division by zero) yields null, per spec section 4.3. -/
def evalRow : RowExpr → Row → Value
  | .col c, r => getV r c
  | .lit q, _ => Value.num q
  | .add a b, r => numBin (· + ·) (evalRow a r) (evalRow b r)
  | .sub a b, r => numBin (· - ·) (evalRow a r) (evalRow b r)
  | .mul a b, r => numBin (· * ·) (evalRow a r) (evalRow b r)
  | .div a b, r =>
    match evalRow a r, evalRow b r with
    | Value.num x, Value.num y => if y = 0 then Value.null else Value.num (x / y)
    | _, _ => Value.null

/-- Keep the first occurrence of each element, dropping later duplicates
(the order pandas `groupby(sort=False)` and `nunique` observe). -/
def dedupFirstAux {α : Type} [DecidableEq α] (seen : List α) : List α → List α
  | [] => []
  | x :: xs => if x ∈ seen then dedupFirstAux seen xs else x :: dedupFirstAux (x :: seen) xs

/-- Distinct elements of a list in order of first occurrence. -/
def dedupFirst {α : Type} [DecidableEq α] (l : List α) : List α := dedupFirstAux [] l

/-- Modelled from the spec: aggregation functions of the Metric Registry
("sum, mean, count-distinct, or an arbitrary reduction over the grouped
values", spec section 3); the engine code carrying them is not in src/. -/
inductive Agg where
  | sum : Agg
  | mean : Agg
  | countDistinct : Agg
  | custom : (List Value → Value) → Agg

/-- Modelled from the spec: reduce the per-group sequence of scalars to one
value (spec section 4.3); non-numeric values are skipped by the numeric
reductions, as pandas does for NaN. -/
def applyAgg : Agg → List Value → Value
  | .sum, vs => Value.num (vs.filterMap toQ).sum
  | .mean, vs =>
    let qs := vs.filterMap toQ
    if qs.isEmpty then Value.null else Value.num (qs.sum / (qs.length : ℚ))
  | .countDistinct, vs => Value.num ((dedupFirst (vs.filter (fun v => decide (v ≠ Value.null)))).length : ℚ)
  | .custom f, vs => f vs

/-- A metric: row-level expression plus aggregation (spec section 3). -/
structure Metric where
  expr : RowExpr
  agg : Agg

/-- Post-aggregation expressions of computed metrics and having-predicates:
references to metric / computed-metric names, literals and arithmetic. -/
inductive CExpr where
  | ref : String → CExpr
  | lit : ℚ → CExpr
  | add : CExpr → CExpr → CExpr
  | sub : CExpr → CExpr → CExpr
  | mul : CExpr → CExpr → CExpr
  | div : CExpr → CExpr → CExpr
deriving DecidableEq

/-- Metric names referenced by a post-aggregation expression. -/
def CExpr.refs : CExpr → List String
  | .ref n => [n]
  | .lit _ => []
  | .add a b => a.refs ++ b.refs
  | .sub a b => a.refs ++ b.refs
  | .mul a b => a.refs ++ b.refs
  | .div a b => a.refs ++ b.refs

/-- Modelled from the spec: evaluate a post-aggregation expression over an
already-aggregated output row (spec section 4.3).  A null or missing operand,
or a division by zero, makes the result undefined (`none`). -/
def evalC : CExpr → Row → Option ℚ
  | .ref n, env => toQ (getV env n)
  | .lit q, _ => some q
  | .add a b, env =>
    match evalC a env, evalC b env with
    | some x, some y => some (x + y)
    | _, _ => none
  | .sub a b, env =>
    match evalC a env, evalC b env with
    | some x, some y => some (x - y)
    | _, _ => none
  | .mul a b, env =>
    match evalC a env, evalC b env with
    | some x, some y => some (x * y)
    | _, _ => none
  | .div a b, env =>
    match evalC a env, evalC b env with
    | some x, some y => if y = 0 then none else some (x / y)
    | _, _ => none

/-- Modelled from the spec: the fill policy of computed metrics.  A defined
result is kept; an undefined one is replaced by the `fillna` value when given,
and propagates as null otherwise (spec section 4.3). -/
def applyFill (fill : Option ℚ) : Option ℚ → Value
  | some q => Value.num q
  | none =>
    match fill with
    | some f => Value.num f
    | none => Value.null

/-- A computed metric: post-aggregation expression plus fill policy. -/
structure ComputedMetric where
  expr : CExpr
  fillna : Option ℚ
deriving DecidableEq

/-- Having-predicates: boolean comparisons over metric /computed-metric
columns, such as `[Margin %] >= 35`. -/
inductive HavingPred where
  | ge : CExpr → CExpr → HavingPred
  | gt : CExpr → CExpr → HavingPred
  | le : CExpr → CExpr → HavingPred
  | lt : CExpr → CExpr → HavingPred
  | eq : CExpr → CExpr → HavingPred
deriving DecidableEq

/-- Metric names referenced by a having-predicate. -/
def HavingPred.refs : HavingPred → List String
  | .ge a b => a.refs ++ b.refs
  | .gt a b => a.refs ++ b.refs
  | .le a b => a.refs ++ b.refs
  | .lt a b => a.refs ++ b.refs
  | .eq a b => a.refs ++ b.refs

/-- Modelled from the spec: evaluate a having-predicate over an aggregated
row; an undefined operand gives an undefined (non-boolean) result, which the
executor treats as false (spec section 4.4 step 7). -/
def evalPred : HavingPred → Row → Option Bool
  | .ge a b, env =>
    match evalC a env, evalC b env with
    | some x, some y => some (decide (y ≤ x))
    | _, _ => none
  | .gt a b, env =>
    match evalC a env, evalC b env with
    | some x, some y => some (decide (y < x))
    | _, _ => none
  | .le a b, env =>
    match evalC a env, evalC b env with
    | some x, some y => some (decide (x ≤ y))
    | _, _ => none
  | .lt a b, env =>
    match evalC a env, evalC b env with
    | some x, some y => some (decide (x < y))
    | _, _ => none
  | .eq a b, env =>
    match evalC a env, evalC b env with
    | some x, some y => some (decide (x = y))
    | _, _ => none

/-- Sort directions of a query's sort specification. -/
inductive Dir where
  | asc : Dir
  | desc : Dir
deriving DecidableEq

/-- A stored query definition (spec section 3). -/
structure Query where
  metrics : List String
  computed_metrics : List String
  dimensions : List String
  having : Option HavingPred
  drop_null_dimensions : Bool
  sort : List (String × Dir)
deriving DecidableEq

/-- Filter criteria: dimension name to allowed values; a dimension absent
from the mapping is unrestricted (spec section 3). -/
abbrev Criteria := List (String × List Value)

/-- Modelled from the spec: a row passes a filter state when, for every
restricted dimension with a non-empty allowed set, its value for that
dimension is in the set (AND across dimensions, OR across values,
spec section 4.2). -/
def matchesCriteria (crit : Criteria) (r : Row) : Bool :=
  crit.all fun p => p.2.isEmpty || decide (getV r p.1 ∈ p.2)

/-- The tuple of dimension values a row is grouped by. -/
def keyOf (dims : List String) (r : Row) : List Value := dims.map (getV r)

/-- Modelled from the spec: group rows by the distinct tuple of dimension
values, groups appearing in order of first occurrence; only tuples realised
by at least one row occur (spec section 4.4 step 4). -/
def groupRows (dims : List String) (rows : Table) : List (List Value × Table) :=
  (dedupFirst (rows.map (keyOf dims))).map fun k =>
    (k, rows.filter fun r => decide (keyOf dims r = k))

/-- Modelled from the spec: the aggregated metric columns of one group, every
registered metric evaluated by its row expression then its reduction
(spec section 4.4 step 4). -/
def metricEnv (mets : List (String × Metric)) (group : Table) : Row :=
  mets.map fun p => (p.1, applyAgg p.2.agg (group.map (evalRow p.2.expr)))

/-- Modelled from the spec: extend an aggregated row with every registered
computed metric, in registry (dependency) order, each with its fill policy
applied (spec section 4.4 step 5). -/
def extendComputed (cmets : List (String × ComputedMetric)) (env : Row) : Row :=
  cmets.foldl (fun e p => e ++ [(p.1, applyFill p.2.fillna (evalC p.2.expr e))]) env

/-- Modelled from the spec: the full aggregated rows of a query before the
null-drop, having, sort and projection steps: dimension values followed by
all metric and computed-metric columns. -/
def fullRows (mets : List (String × Metric)) (cmets : List (String × ComputedMetric))
    (dims : List String) (rows : Table) : Table :=
  (groupRows dims rows).map fun g => (dims.zip g.1) ++ extendComputed cmets (metricEnv mets g.2)

/-- Modelled from the spec: step 6 of the executor — when the flag is set,
drop rows with a null value in any dimension column. -/
def stageDropNull (flag : Bool) (dims : List String) (t : Table) : Table :=
  if flag then t.filter (fun r => dims.all fun d => decide (getV r d ≠ Value.null)) else t

/-- Modelled from the spec: step 7 of the executor — keep only rows whose
having-predicate evaluates to boolean true; undefined or non-true results
drop the row (spec section 4.4 step 7). -/
def stageHaving (hv : Option HavingPred) (t : Table) : Table :=
  match hv with
  | none => t
  | some p => t.filter fun r => decide (evalPred p r = some true)

/-- Three-way comparison on a linearly ordered type. -/
def cmpOf {α : Type} [LinearOrder α] (a b : α) : Ordering :=
  if a < b then Ordering.lt else if b < a then Ordering.gt else Ordering.eq

/-- Comparison of two cell values: null sorts before numbers, numbers before
strings; numbers by rational order, strings lexicographically. -/
def valueCmp : Value → Value → Ordering
  | Value.null, Value.null => Ordering.eq
  | Value.null, _ => Ordering.lt
  | _, Value.null => Ordering.gt
  | Value.num a, Value.num b => cmpOf a b
  | Value.num _, Value.str _ => Ordering.lt
  | Value.str _, Value.num _ => Ordering.gt
  | Value.str a, Value.str b => cmpOf a b

/-- Compare two rows on one sort column, respecting its direction. -/
def colCmp (p : String × Dir) (r1 r2 : Row) : Ordering :=
  match p.2 with
  | Dir.asc => valueCmp (getV r1 p.1) (getV r2 p.1)
  | Dir.desc => valueCmp (getV r2 p.1) (getV r1 p.1)

/-- Lexicographic comparison of two rows along a sort specification. -/
def rowCmp : List (String × Dir) → Row → Row → Ordering
  | [], _, _ => Ordering.eq
  | p :: rest, r1, r2 =>
    match colCmp p r1 r2 with
    | Ordering.eq => rowCmp rest r1 r2
    | o => o

/-- The non-strict sort order on rows induced by a sort specification. -/
def rowLEr (spec : List (String × Dir)) (r1 r2 : Row) : Prop :=
  rowCmp spec r1 r2 ≠ Ordering.gt

instance (spec : List (String × Dir)) : DecidableRel (rowLEr spec) := fun r1 r2 =>
  inferInstanceAs (Decidable (rowCmp spec r1 r2 ≠ Ordering.gt))

/-- Modelled from the spec: step 8 of the executor — a stable sort by the
ordered (column, direction) list; an empty specification leaves the input
group order (spec section 4.4 step 8). -/
def sortStage (spec : List (String × Dir)) (t : Table) : Table :=
  match spec with
  | [] => t
  | _ => List.insertionSort (rowLEr spec) t

/-- Restrict a row to the listed output columns, in order. -/
def projectRow (cols : List String) (r : Row) : Row := cols.map fun c => (c, getV r c)

/-- Modelled from the spec: the rows of a query after grouping, metric and
computed-metric evaluation and the null-drop step — the input of the
having step (spec section 4.4 steps 1-6). -/
def rowsBeforeHaving (base : Table) (mets : List (String × Metric))
    (cmets : List (String × ComputedMetric)) (crit : Criteria) (q : Query) : Table :=
  stageDropNull q.drop_null_dimensions q.dimensions
    (fullRows mets cmets q.dimensions (base.filter (matchesCriteria crit)))

/-- Modelled from the spec: the full deterministic execution of one query
against a filter criteria set (spec section 4.4 steps 1-8). -/
def executeQuery (base : Table) (mets : List (String × Metric))
    (cmets : List (String × ComputedMetric)) (crit : Criteria) (q : Query) : Table :=
  (sortStage q.sort (stageHaving q.having (rowsBeforeHaving base mets cmets crit q))).map
    (projectRow (q.dimensions ++ q.metrics ++ q.computed_metrics))

/-- Modelled from the spec: the unsorted result of a query — the same rows
the query returns, still in input group order (spec section 4.4, without
step 8). -/
def queryUnsorted (base : Table) (mets : List (String × Metric))
    (cmets : List (String × ComputedMetric)) (crit : Criteria) (q : Query) : Table :=
  (stageHaving q.having (rowsBeforeHaving base mets cmets crit q)).map
    (projectRow (q.dimensions ++ q.metrics ++ q.computed_metrics))

/-- Definition-time errors of the engine (spec section 7). -/
inductive Err where
  | duplicateName : String → Err
  | unknownMetric : String → Err
  | unknownReference : String → Err
  | cyclicDependency : String → Err
  | expressionError : String → Err
deriving DecidableEq

/-- Modelled from the spec: the engine instance — the joined base row set,
the metric, computed-metric and query registries, and the named filter
states (spec sections 2 and 3).  The `Hypercube` class itself is not in
src/; only the dashboard calling it is. -/
structure Hypercube where
  columns : List String
  baseRows : Table
  metrics : List (String × Metric)
  computed_metrics : List (String × ComputedMetric)
  queries : List (String × Query)
  filterStates : List (String × Criteria)

/-- The name of the mutable current filter state queries execute against. -/
def currentStateName : String := "Default"

/-- Modelled from the spec: read a named filter state; the "Unfiltered"
baseline is immutable and always empty, and states are created empty on
first reference (spec section 3). -/
def Hypercube.stateCriteria (hc : Hypercube) (name : String) : Criteria :=
  if name = "Unfiltered" then [] else (lookupName name hc.filterStates).getD []

/-- Replace or create one named entry of the filter-state registry. -/
def setState (fs : List (String × Criteria)) (name : String) (c : Criteria) :
    List (String × Criteria) :=
  fs.filter (fun p => decide (p.1 ≠ name)) ++ [(name, c)]

/-- Modelled from the spec: merge criteria into an existing state — each key
present replaces that dimension's allowed set, absent keys keep their
previous restriction (spec section 4.2). -/
def mergeCriteria (old new : Criteria) : Criteria :=
  old.filter (fun p => (lookupName p.1 new).isNone) ++ new

/-- Modelled from the spec: `filter(criteria)` merges the criteria into the
current filter state (spec section 4.2). -/
def Hypercube.filter (hc : Hypercube) (crit : Criteria) : Hypercube :=
  { hc with
    filterStates :=
      setState hc.filterStates currentStateName
        (mergeCriteria (hc.stateCriteria currentStateName) crit) }

/-- Modelled from the spec: `reset_filters(name)` clears one named state back
to unrestricted; `reset_filters('all')` clears every state
(spec section 4.2). -/
def Hypercube.reset_filters (hc : Hypercube) (name : String) : Hypercube :=
  if name = "all" then { hc with filterStates := [] }
  else { hc with filterStates := hc.filterStates.filter (fun p => decide (p.1 ≠ name)) }

/-- The dashboard's `apply_filters`: reset every filter state, then apply the
UI criteria only when they are non-empty
(`streamlit_adventureworks.py` lines 94-98). -/
def apply_filters (hc : Hypercube) (crit : Criteria) : Hypercube :=
  let h1 := hc.reset_filters "all"
  if crit.isEmpty then h1 else h1.filter crit

/-- Modelled from the spec: execute a named query against an explicit
criteria set; an unknown query name yields no result. -/
def Hypercube.executeWith (hc : Hypercube) (crit : Criteria) (qn : String) : Option Table :=
  (lookupName qn hc.queries).map (executeQuery hc.baseRows hc.metrics hc.computed_metrics crit)

/-- Modelled from the spec: `query(name)` executes against the current
filter state, fresh on every call (spec section 4.4). -/
def Hypercube.query (hc : Hypercube) (qn : String) : Option Table :=
  hc.executeWith (hc.stateCriteria currentStateName) qn

/-- Modelled from the spec: execute a named query against a named, possibly
non-current filter state (the `context_state_name` access path of
spec section 6). -/
def Hypercube.queryInState (hc : Hypercube) (stateName qn : String) : Option Table :=
  hc.executeWith (hc.stateCriteria stateName) qn

/-- Modelled from the spec: `define_metric` — duplicate names and references
to unknown columns fail, atomically leaving the registry unchanged
(spec sections 4.3 and 7). -/
def Hypercube.define_metric (hc : Hypercube) (name : String) (expr : RowExpr) (agg : Agg) :
    Hypercube × Option Err :=
  if (lookupName name hc.metrics).isSome then (hc, some (Err.duplicateName name))
  else
    match expr.refs.find? (fun c => decide (c ∉ hc.columns)) with
    | some c => (hc, some (Err.expressionError c))
    | none => ({ hc with metrics := hc.metrics ++ [(name, ⟨expr, agg⟩)] }, none)

/-- Is a name registered as a metric or computed metric? -/
def Hypercube.knownMetricName (hc : Hypercube) (n : String) : Bool :=
  (lookupName n hc.metrics).isSome || (lookupName n hc.computed_metrics).isSome

/-- Modelled from the spec: `define_computed_metric` — duplicate names fail;
a reference to the name being defined would create a cycle and fails with
CyclicDependencyError; a reference to any other name not yet defined fails
with UnknownMetricError; failures leave the registry unchanged
(spec sections 3, 4.3 and 7). -/
def Hypercube.define_computed_metric (hc : Hypercube) (name : String) (expr : CExpr)
    (fillna : Option ℚ) : Hypercube × Option Err :=
  if (lookupName name hc.computed_metrics).isSome then (hc, some (Err.duplicateName name))
  else if expr.refs.contains name then (hc, some (Err.cyclicDependency name))
  else
    match expr.refs.find? (fun r => !(hc.knownMetricName r)) with
    | some r => (hc, some (Err.unknownMetric r))
    | none =>
      ({ hc with computed_metrics := hc.computed_metrics ++ [(name, ⟨expr, fillna⟩)] }, none)

/-- Modelled from the spec: `define_query` — validates every referenced
metric, computed metric, dimension and having-reference exists, else
UnknownReferenceError; failures leave the registry unchanged
(spec sections 4.4 and 7). -/
def Hypercube.define_query (hc : Hypercube) (name : String) (q : Query) :
    Hypercube × Option Err :=
  if (lookupName name hc.queries).isSome then (hc, some (Err.duplicateName name))
  else
    match q.metrics.find? (fun m => (lookupName m hc.metrics).isNone) with
    | some m => (hc, some (Err.unknownReference m))
    | none =>
      match q.computed_metrics.find? (fun m => (lookupName m hc.computed_metrics).isNone) with
      | some m => (hc, some (Err.unknownReference m))
      | none =>
        match q.dimensions.find? (fun d => decide (d ∉ hc.columns)) with
        | some d => (hc, some (Err.unknownReference d))
        | none =>
          match
            (match q.having with
             | none => none
             | some p => p.refs.find? (fun r => !(hc.knownMetricName r))) with
          | some r => (hc, some (Err.unknownReference r))
          | none => ({ hc with queries := hc.queries ++ [(name, q)] }, none)

/-- Modelled from the spec: a single-key equijoin of two tables — the row
set spanning both tables' columns, one output row per matching pair
(spec section 4.4 step 2, restricted to one declared relationship). -/
def joinOn (t1 t2 : Table) (k : String) : Table :=
  t1.flatMap fun r1 => (t2.filter fun r2 => decide (getV r2 k = getV r1 k)).map fun r2 => r1 ++ r2

/-- Python values as seen by `_clean_currency`: strings (as character lists),
floats, ints, or None. -/
inductive PyVal where
  | str : List Char → PyVal
  | float : ℚ → PyVal
  | int : Int → PyVal
  | none : PyVal
deriving DecidableEq

/-- Does the pattern occur at the head of the text? -/
def matchesAt : List Char → List Char → Bool
  | [], _ => true
  | _ :: _, [] => false
  | p :: ps, x :: xs => p == x && matchesAt ps xs

/-- Python's `str.replace(pat, rep)` for a non-empty pattern `p :: ps`:
replace every non-overlapping occurrence, scanning left to right. -/
def pyReplace (p : Char) (ps : List Char) (rep : List Char) : List Char → List Char
  | [] => []
  | x :: xs =>
    if matchesAt (p :: ps) (x :: xs) then rep ++ pyReplace p ps rep (xs.drop ps.length)
    else x :: pyReplace p ps rep xs
termination_by l => l.length
decreasing_by
  · simp only [List.length_drop, List.length_cons]
    omega
  · simp only [List.length_cons]
    omega

/-- The numeric value of a decimal digit, if the character is one. -/
def digitVal (c : Char) : Option ℕ :=
  if '0' ≤ c ∧ c ≤ '9' then some (c.toNat - '0'.toNat) else none

/-- Read a run of decimal digits into an accumulator; any non-digit fails. -/
def parseDigitsAux (acc : ℕ) : List Char → Option ℕ
  | [] => some acc
  | c :: cs =>
    match digitVal c with
    | some d => parseDigitsAux (acc * 10 + d) cs
    | none => none

/-- Python's `float()` on an unsigned decimal string: integer part, optional
point, fraction part; at least one digit overall. -/
def pyFloatPos (s : List Char) : Option ℚ :=
  let ip := s.takeWhile (fun c => decide (c ≠ '.'))
  let rest := s.dropWhile (fun c => decide (c ≠ '.'))
  match rest with
  | [] => if ip.isEmpty then none else (parseDigitsAux 0 ip).map (fun n => (n : ℚ))
  | _ :: fp =>
    if ip.isEmpty && fp.isEmpty then none
    else
      match parseDigitsAux 0 ip, parseDigitsAux 0 fp with
      | some a, some b => some ((a : ℚ) + (b : ℚ) / ((10 : ℚ) ^ fp.length))
      | _, _ => none

/-- Python's `float()` on a decimal string with an optional sign. -/
def pyFloat : List Char → Option ℚ
  | '-' :: rest => (pyFloatPos rest).map Neg.neg
  | '+' :: rest => pyFloatPos rest
  | s => pyFloatPos s

/-- The dashboard's `_clean_currency`: a string has every `$` and `,` removed
(via two chained `str.replace` calls) and is converted by `float()` (`none`
models the `ValueError` of an unparsable string); any non-string input is
returned unchanged (`streamlit_adventureworks.py` lines 8-11). -/
def _clean_currency : PyVal → Option PyVal
  | PyVal.str s => (pyFloat (pyReplace ',' [] [] (pyReplace '$' [] [] s))).map PyVal.float
  | v => some v

/-- Sequence two definition calls, stopping at the first raised error, as the
Python `define_*` statements execute one after another. -/
def andThenDef (r : Hypercube × Option Err) (f : Hypercube → Hypercube × Option Err) :
    Hypercube × Option Err :=
  match r.2 with
  | some _ => r
  | none => f r.1

/-- The dashboard's `_define_metrics_and_queries`: the four base metrics, the
two computed metrics and the three queries it registers on the cube
(`streamlit_adventureworks.py` lines 55-91). -/
def _define_metrics_and_queries (hc : Hypercube) : Hypercube × Option Err :=
  andThenDef
    (andThenDef
      (andThenDef
        (andThenDef
          (andThenDef
            (andThenDef
              (andThenDef
                (andThenDef
                  (hc.define_metric "Revenue"
                    (RowExpr.mul (RowExpr.col "Unit Price") (RowExpr.col "Quantity")) Agg.sum)
                  (fun h => h.define_metric "Cost" (RowExpr.col "Cost") Agg.sum))
                (fun h => h.define_metric "avg Unit Price" (RowExpr.col "Unit Price") Agg.mean))
              (fun h => h.define_metric "number of Orders" (RowExpr.col "SalesOrderNumber")
                (Agg.custom (applyAgg Agg.countDistinct))))
            (fun h => h.define_computed_metric "Margin"
              (CExpr.sub (CExpr.ref "Revenue") (CExpr.ref "Cost")) (some 0)))
          (fun h => h.define_computed_metric "Margin %"
            (CExpr.div (CExpr.mul (CExpr.lit 100) (CExpr.sub (CExpr.ref "Revenue") (CExpr.ref "Cost")))
              (CExpr.ref "Revenue")) none))
        (fun h => h.define_query "Sales by Region"
          { metrics := ["Revenue"], computed_metrics := ["Margin %"],
            dimensions := ["Region", "Category"], having := none,
            drop_null_dimensions := true, sort := [("Revenue", Dir.desc)] }))
      (fun h => h.define_query "avg Unit Price by Category & Business Type"
        { metrics := ["avg Unit Price"], computed_metrics := [],
          dimensions := ["Category", "Business Type"], having := none,
          drop_null_dimensions := true, sort := [] }))
    (fun h => h.define_query "High-Margin Products (>35%)"
      { metrics := ["number of Orders"], computed_metrics := ["Margin"],
        dimensions := ["Product"],
        having := some (HavingPred.ge (CExpr.ref "Margin %") (CExpr.lit 35)),
        drop_null_dimensions := true, sort := [("Margin", Dir.desc)] })

/-- An engine with empty registries, the state before any `define_*` call. -/
def emptyCube : Hypercube :=
  { columns := [], baseRows := [], metrics := [], computed_metrics := [],
    queries := [], filterStates := [] }

/-- A one-metric engine used to exhibit concrete definition-time errors. -/
def dupCube : Hypercube :=
  { columns := ["X"], baseRows := [],
    metrics := [("M", ⟨RowExpr.col "X", Agg.sum⟩)],
    computed_metrics := [], queries := [], filterStates := [] }

/-- Having-predicate of the witness query: `[M] >= 0`. -/
def havPred : HavingPred := HavingPred.ge (CExpr.ref "M") (CExpr.lit 0)

/-- A one-metric query with a having-predicate, used as a witness input. -/
def havQuery : Query :=
  { metrics := ["M"], computed_metrics := [], dimensions := ["d"],
    having := some havPred, drop_null_dimensions := false, sort := [] }

/-- A small engine carrying `havQuery`, used as a witness input. -/
def havCube : Hypercube :=
  { columns := ["d", "x"],
    baseRows := [[("d", Value.str "a"), ("x", Value.num 1)],
                 [("d", Value.str "b"), ("x", Value.num (-2))]],
    metrics := [("M", ⟨RowExpr.col "x", Agg.sum⟩)],
    computed_metrics := [], queries := [("Q", havQuery)], filterStates := [] }

/-- Query of the fillna witness engine: one metric and two computed metrics
over one dimension. -/
def fnQuery : Query :=
  { metrics := ["R"], computed_metrics := ["CM", "CN"], dimensions := ["d"],
    having := none, drop_null_dimensions := false, sort := [] }

/-- Engine whose single group makes both computed-metric ratios 0/0: `CM`
carries `fillna=0`, `CN` carries no fill value. -/
def fnCube : Hypercube :=
  { columns := ["d", "x"],
    baseRows := [[("d", Value.str "a"), ("x", Value.num 0)]],
    metrics := [("R", ⟨RowExpr.col "x", Agg.sum⟩)],
    computed_metrics :=
      [("CM", ⟨CExpr.div (CExpr.ref "R") (CExpr.ref "R"), some 0⟩),
       ("CN", ⟨CExpr.div (CExpr.ref "R") (CExpr.ref "R"), none⟩)],
    queries := [("Q", fnQuery)], filterStates := [] }

/-- The single output row of `fnCube`'s query. -/
def fnRow : Row :=
  [("d", Value.str "a"), ("R", Value.num 0), ("CM", Value.num 0), ("CN", Value.null)]

/-- A query with one summed metric grouped by one dimension, no filter
stages: the shape of C2's grouped-aggregation claim. -/
def singleMetricGroupQuery (d mn : String) : Query :=
  { metrics := [mn], computed_metrics := [], dimensions := [d], having := none,
    drop_null_dimensions := false, sort := [] }

/-- An engine over the single-key equijoin of two tables, with one summed
metric and one grouped query registered. -/
def singleJoinCube (cols : List String) (t1 t2 : Table) (k d mn qn : String)
    (e : RowExpr) : Hypercube :=
  { columns := cols, baseRows := joinOn t1 t2 k,
    metrics := [(mn, ⟨e, Agg.sum⟩)], computed_metrics := [],
    queries := [(qn, singleMetricGroupQuery d mn)], filterStates := [] }

/-- Sales fixture of the spec's three-row example: ProductID, Qty,
UnitPrice. -/
def salesT : Table :=
  [[("ProductID", Value.str "P1"), ("Qty", Value.num 2), ("UnitPrice", Value.num 10)],
   [("ProductID", Value.str "P1"), ("Qty", Value.num 1), ("UnitPrice", Value.num 5)],
   [("ProductID", Value.str "P2"), ("Qty", Value.num 3), ("UnitPrice", Value.num 4)]]

/-- Product fixture of the spec's three-row example: ProductID, Category. -/
def productT : Table :=
  [[("ProductID", Value.str "P1"), ("Category", Value.str "Bikes")],
   [("ProductID", Value.str "P2"), ("Category", Value.str "Clothing")]]

/-- The row-level revenue expression `[Qty] * [UnitPrice]`. -/
def revExpr : RowExpr := RowExpr.mul (RowExpr.col "Qty") (RowExpr.col "UnitPrice")

/-- Query of the sort witness: Revenue per dimension, sorted descending. -/
def sortQuery : Query :=
  { metrics := ["Revenue"], computed_metrics := [], dimensions := ["d"],
    having := none, drop_null_dimensions := false, sort := [("Revenue", Dir.desc)] }

/-- Engine of the sort witness: three groups with Revenue 1, 5 and 5 — a tie
whose group order must survive the descending sort. -/
def sortCube : Hypercube :=
  { columns := ["d", "x"],
    baseRows := [[("d", Value.str "a"), ("x", Value.num 1)],
                 [("d", Value.str "b"), ("x", Value.num 5)],
                 [("d", Value.str "c"), ("x", Value.num 5)]],
    metrics := [("Revenue", ⟨RowExpr.col "x", Agg.sum⟩)],
    computed_metrics := [], queries := [("Q", sortQuery)], filterStates := [] }

/-- Expected sorted output of `sortCube`'s query: the tied groups b and c
keep their group order under the descending sort. -/
def sortOut : Table :=
  [[("d", Value.str "b"), ("Revenue", Value.num 5)],
   [("d", Value.str "c"), ("Revenue", Value.num 5)],
   [("d", Value.str "a"), ("Revenue", Value.num 1)]]

/-- Resetting every filter state and then querying is the same as querying
against the immutable "Unfiltered" baseline: both execute over an empty
criteria set and identical registries. -/
theorem query_after_full_reset (hc : Hypercube) (qn : String) :
    (hc.reset_filters "all").query qn = hc.queryInState "Unfiltered" qn := rfl

/-- C1: under the dashboard's filter-application semantics, an empty criteria
map fully resets the filter state — `apply_filters` with `{}` equals
`reset_filters('all')`, and the subsequent query result equals the query
evaluated under the unrestricted "Unfiltered" state. -/
theorem apply_filters_empty_is_full_reset (hc : Hypercube) :
    apply_filters hc [] = hc.reset_filters "all" ∧
      ∀ qn : String, (apply_filters hc []).query qn = hc.queryInState "Unfiltered" qn :=
  ⟨rfl, fun qn => query_after_full_reset hc qn⟩

/-- C6: `reset_filters('all')` followed by `query(q)` returns the same result
as evaluating `query(q)` against the immutable "Unfiltered" baseline state
over the same registries. -/
theorem reset_all_query_eq_unfiltered (hc : Hypercube) (qn : String) :
    (hc.reset_filters "all").query qn = hc.queryInState "Unfiltered" qn :=
  query_after_full_reset hc qn

/-- C10: the filter-state registry produced by `apply_filters` depends only
on the criteria, not on any prior filter or reset history: two cubes with
arbitrary prior filter states end up with identical filter-state registries
after applying the same criteria. -/
theorem apply_filters_history_independent (hc hc' : Hypercube) (crit : Criteria) :
    (apply_filters hc crit).filterStates = (apply_filters hc' crit).filterStates := by
  cases crit with
  | nil => rfl
  | cons p rest => rfl

/-- Replacing a single-character pattern by the empty string removes exactly
the occurrences of that character. -/
theorem pyReplace_single (c : Char) (s : List Char) :
    pyReplace c [] [] s = s.filter (fun x => decide (x ≠ c)) := by
  induction s with
  | nil => simp [pyReplace]
  | cons x xs ih =>
    rw [pyReplace]
    by_cases hx : c = x
    · subst hx
      simp [matchesAt, ih, List.filter_cons]
    · have hbeq : (c == x) = false := beq_eq_false_iff_ne.mpr hx
      have hxc : (decide (x ≠ c)) = true := decide_eq_true (fun h => hx h.symm)
      simp only [matchesAt, hbeq, Bool.and_true, Bool.false_and, if_false, cond_false,
        Bool.false_eq_true, ih, List.filter_cons, hxc, if_true]

/-- C9: `_clean_currency` maps a string to the float parsed from the string
with every `$` and `,` character removed, and returns any non-string value
unchanged. -/
theorem clean_currency_spec :
    (∀ s : List Char,
        _clean_currency (PyVal.str s) =
          (pyFloat (s.filter fun ch => decide (ch ≠ '$' ∧ ch ≠ ','))).map PyVal.float) ∧
      (∀ q : ℚ, _clean_currency (PyVal.float q) = some (PyVal.float q)) ∧
      (∀ n : Int, _clean_currency (PyVal.int n) = some (PyVal.int n)) ∧
      _clean_currency PyVal.none = some PyVal.none := by
  refine ⟨?_, fun q => rfl, fun n => rfl, rfl⟩
  intro s
  show (pyFloat (pyReplace ',' [] [] (pyReplace '$' [] [] s))).map PyVal.float = _
  rw [pyReplace_single, pyReplace_single, List.filter_filter]
  congr 1
  apply congrArg
  apply List.filter_congr
  intro ch _
  rcases Decidable.em (ch = '$') with h1 | h1 <;> rcases Decidable.em (ch = ',') with h2 | h2 <;> simp [h1, h2]

/-- A failing `define_metric` call leaves the engine unchanged. -/
theorem define_metric_atomic (hc : Hypercube) (n : String) (e : RowExpr) (a : Agg)
    (h : ((hc.define_metric n e a).2).isSome = true) : (hc.define_metric n e a).1 = hc := by
  unfold Hypercube.define_metric at h ⊢
  split at h
  next hdup => rw [if_pos hdup]
  next hdup =>
    rw [if_neg hdup]
    split at h
    next c heq => rfl
    next heq => simp at h

/-- A failing `define_computed_metric` call leaves the engine unchanged. -/
theorem define_computed_metric_atomic (hc : Hypercube) (n : String) (e : CExpr)
    (f : Option ℚ) (h : ((hc.define_computed_metric n e f).2).isSome = true) :
    (hc.define_computed_metric n e f).1 = hc := by
  unfold Hypercube.define_computed_metric at h ⊢
  split at h
  next hdup => rw [if_pos hdup]
  next hdup =>
    rw [if_neg hdup]
    split at h
    next hcyc => rw [if_pos hcyc]
    next hcyc =>
      rw [if_neg hcyc]
      split at h
      next r heq => rfl
      next heq => simp at h

/-- A failing `define_query` call leaves the engine unchanged. -/
theorem define_query_atomic (hc : Hypercube) (n : String) (q : Query)
    (h : ((hc.define_query n q).2).isSome = true) : (hc.define_query n q).1 = hc := by
  unfold Hypercube.define_query at h ⊢
  split at h
  next hdup => rw [if_pos hdup]
  next hdup =>
    rw [if_neg hdup]
    split at h
    next m heq => rfl
    next heq =>
      split at h
      next m heq2 => rfl
      next heq2 =>
        split at h
        next d heq3 => rfl
        next heq3 =>
          split at h
          next r heq4 => rfl
          next heq4 => simp at h

/-- C8: every definition-time error of `define_metric`,
`define_computed_metric` or `define_query` is raised synchronously by that
call and leaves the corresponding registries exactly as they were — no
partially-registered entity exists afterwards. -/
theorem define_errors_atomic :
    (∀ (hc : Hypercube) (n : String) (e : RowExpr) (a : Agg),
        ((hc.define_metric n e a).2).isSome = true → (hc.define_metric n e a).1 = hc) ∧
      (∀ (hc : Hypercube) (n : String) (e : CExpr) (f : Option ℚ),
        ((hc.define_computed_metric n e f).2).isSome = true →
          (hc.define_computed_metric n e f).1 = hc) ∧
      (∀ (hc : Hypercube) (n : String) (q : Query),
        ((hc.define_query n q).2).isSome = true → (hc.define_query n q).1 = hc) :=
  ⟨define_metric_atomic, define_computed_metric_atomic, define_query_atomic⟩

/-- Witness for C8: a duplicate-name `define_metric` call errors and leaves
the registry untouched. -/
theorem define_errors_atomic_witness :
    ((dupCube.define_metric "M" (RowExpr.col "X") Agg.sum).2).isSome = true ∧
      (dupCube.define_metric "M" (RowExpr.col "X") Agg.sum).1 = dupCube :=
  ⟨rfl, define_errors_atomic.1 dupCube "M" (RowExpr.col "X") Agg.sum rfl⟩

/-- C7 counterexample: defining computed metric `A` referencing `B` and then
`B` referencing `A`, both calls fail at definition time with
UnknownMetricError — not CyclicDependencyError — because a computed metric
may only reference names already registered, so the first call never
registers `A` and the mutual cycle can never be formed. -/
theorem mutual_reference_fails_with_unknown_metric :
    ((emptyCube.define_computed_metric "A" (CExpr.ref "B") none).2 =
        some (Err.unknownMetric "B")) ∧
      (((emptyCube.define_computed_metric "A" (CExpr.ref "B") none).1.define_computed_metric
            "B" (CExpr.ref "A") none).2 = some (Err.unknownMetric "A")) ∧
      ¬(((emptyCube.define_computed_metric "A" (CExpr.ref "B") none).1.define_computed_metric
            "B" (CExpr.ref "A") none).2 = some (Err.cyclicDependency "B")) := by
  refine ⟨rfl, rfl, ?_⟩
  decide

/-- C7 amended: when two computed metrics reference each other, both
`define_computed_metric` calls fail synchronously at definition time — with
UnknownMetricError (the referenced name is not yet defined), not
CyclicDependencyError — and the registry is left unchanged, so no error can
surface at query time. -/
theorem mutual_reference_unknown_metric (hc : Hypercube) (nA nB : String)
    (fA fB : Option ℚ) (hne : nA ≠ nB)
    (hA : hc.knownMetricName nA = false) (hB : hc.knownMetricName nB = false) :
    ((hc.define_computed_metric nA (CExpr.ref nB) fA).2 = some (Err.unknownMetric nB)) ∧
      ((hc.define_computed_metric nA (CExpr.ref nB) fA).1 = hc) ∧
      (((hc.define_computed_metric nA (CExpr.ref nB) fA).1.define_computed_metric nB
          (CExpr.ref nA) fB).2 = some (Err.unknownMetric nA)) := by
  have hAm : (lookupName nA hc.metrics).isSome = false := by
    rcases Bool.or_eq_false_iff.mp hA with ⟨h1, _⟩
    exact h1
  have hAc : (lookupName nA hc.computed_metrics).isSome = false := by
    rcases Bool.or_eq_false_iff.mp hA with ⟨_, h2⟩
    exact h2
  have hBc : (lookupName nB hc.computed_metrics).isSome = false := by
    rcases Bool.or_eq_false_iff.mp hB with ⟨_, h2⟩
    exact h2
  have step1 :
      hc.define_computed_metric nA (CExpr.ref nB) fA = (hc, some (Err.unknownMetric nB)) := by
    unfold Hypercube.define_computed_metric
    rw [if_neg (by simp [hAc])]
    have hcon : ¬((CExpr.ref nB).refs.contains nA = true) := by
      simp only [CExpr.refs]
      simp
      exact hne
    rw [if_neg hcon]
    have hfind :
        (CExpr.ref nB).refs.find? (fun r => !(hc.knownMetricName r)) = some nB := by
      simp [CExpr.refs, List.find?, hB]
    rw [hfind]
  refine ⟨by rw [step1], by rw [step1], ?_⟩
  rw [step1]
  unfold Hypercube.define_computed_metric
  rw [if_neg (by simp [hBc])]
  have hcon : ¬((CExpr.ref nA).refs.contains nB = true) := by
    simp only [CExpr.refs]
    simp
    exact hne.symm
  rw [if_neg hcon]
  have hfind :
      (CExpr.ref nA).refs.find? (fun r => !(hc.knownMetricName r)) = some nA := by
    simp [CExpr.refs, List.find?, hA]
  rw [hfind]

/-- Witness for C7's amended theorem at the empty engine with names "A" and
"B". -/
theorem mutual_reference_unknown_metric_witness :
    (("A" : String) ≠ "B") ∧ emptyCube.knownMetricName "A" = false ∧
      emptyCube.knownMetricName "B" = false ∧
      ((emptyCube.define_computed_metric "A" (CExpr.ref "B") none).2 =
          some (Err.unknownMetric "B")) ∧
      ((emptyCube.define_computed_metric "A" (CExpr.ref "B") none).1 = emptyCube) ∧
      (((emptyCube.define_computed_metric "A" (CExpr.ref "B") none).1.define_computed_metric
          "B" (CExpr.ref "A") none).2 = some (Err.unknownMetric "A")) := by
  have h := mutual_reference_unknown_metric emptyCube "A" "B" none none (by decide) rfl rfl
  exact ⟨by decide, rfl, rfl, h.1, h.2.1, h.2.2⟩

/-- C4: with a having-predicate set, the rows surviving the having step are
exactly the aggregated rows on which the predicate evaluates to boolean true
(false, undefined or non-boolean results exclude the row); the surviving
rows are an order-preserving sublist of the pre-having rows, so their metric
and computed-metric values are untouched; and the query result is precisely
the having-filtered rows, sorted and projected. -/
theorem having_filters_rows (hc : Hypercube) (crit : Criteria) (qn : String)
    (q : Query) (p : HavingPred)
    (hq : lookupName qn hc.queries = some q) (hp : q.having = some p) :
    (stageHaving q.having (rowsBeforeHaving hc.baseRows hc.metrics hc.computed_metrics crit q) =
        (rowsBeforeHaving hc.baseRows hc.metrics hc.computed_metrics crit q).filter
          (fun r => decide (evalPred p r = some true))) ∧
      (stageHaving q.having
          (rowsBeforeHaving hc.baseRows hc.metrics hc.computed_metrics crit q)).Sublist
        (rowsBeforeHaving hc.baseRows hc.metrics hc.computed_metrics crit q) ∧
      hc.executeWith crit qn =
        some ((sortStage q.sort
            (stageHaving q.having
              (rowsBeforeHaving hc.baseRows hc.metrics hc.computed_metrics crit q))).map
          (projectRow (q.dimensions ++ q.metrics ++ q.computed_metrics))) := by
  refine ⟨by rw [hp]; rfl, ?_, ?_⟩
  · rw [hp]
    exact List.filter_sublist _
  · unfold Hypercube.executeWith
    rw [hq]
    rfl

/-- Witness for C4 at a concrete two-row engine whose query keeps one of two
aggregated rows. -/
theorem having_filters_rows_witness :
    (lookupName "Q" havCube.queries = some havQuery) ∧ (havQuery.having = some havPred) ∧
      (stageHaving havQuery.having
          (rowsBeforeHaving havCube.baseRows havCube.metrics havCube.computed_metrics []
            havQuery)).Sublist
        (rowsBeforeHaving havCube.baseRows havCube.metrics havCube.computed_metrics []
          havQuery) :=
  ⟨rfl, rfl, (having_filters_rows havCube [] "Q" havQuery havPred rfl rfl).2.1⟩

/-- Extending a row with computed metrics only appends cells. -/
theorem extendComputed_exists_append (cs : List (String × ComputedMetric)) :
    ∀ env : Row, ∃ t : Row, extendComputed cs env = env ++ t := by
  induction cs with
  | nil => exact fun env => ⟨[], (List.append_nil env).symm⟩
  | cons c cs ih =>
    intro env
    obtain ⟨t, ht⟩ := ih (env ++ [(c.1, applyFill c.2.fillna (evalC c.2.expr env))])
    refine ⟨(c.1, applyFill c.2.fillna (evalC c.2.expr env)) :: t, ?_⟩
    show extendComputed cs (env ++ [(c.1, applyFill c.2.fillna (evalC c.2.expr env))]) = _
    rw [ht, List.append_assoc]
    rfl

/-- A column present in the left part of an appended row is read from it. -/
theorem getV_append_of_mem (n : String) :
    ∀ env tail : Row, n ∈ env.map Prod.fst → getV (env ++ tail) n = getV env n := by
  intro env tail h
  induction env with
  | nil => simp at h
  | cons p env ih =>
    show getV (p :: (env ++ tail)) n = _
    rw [getV, getV]
    by_cases hk : p.1 = n
    · rw [if_pos hk, if_pos hk]
    · rw [if_neg hk, if_neg hk]
      apply ih
      rcases List.mem_cons.mp h with h1 | h2
      · exact absurd h1.symm hk
      · exact h2

/-- A column absent from the left part of an appended row is read from the
right part. -/
theorem getV_append_of_not_mem (n : String) :
    ∀ env tail : Row, n ∉ env.map Prod.fst → getV (env ++ tail) n = getV tail n := by
  intro env tail h
  induction env with
  | nil => rfl
  | cons p env ih =>
    show getV (p :: (env ++ tail)) n = _
    rw [getV]
    have hk : p.1 ≠ n := fun he => h (by simp [he])
    rw [if_neg hk]
    exact ih (fun hm => h (by simp [hm]))

/-- The computed-metric cell a registered computed metric contributes to an
aggregated row is always a fill-policy result. -/
theorem extendComputed_getV (cs : List (String × ComputedMetric)) (n : String)
    (cmDef : ComputedMetric) :
    ∀ env : Row, lookupName n cs = some cmDef → n ∉ env.map Prod.fst →
      ∃ oq : Option ℚ, getV (extendComputed cs env) n = applyFill cmDef.fillna oq := by
  induction cs with
  | nil => intro env hlk _; simp [lookupName] at hlk
  | cons c cs ih =>
    intro env hlk hnm
    by_cases hk : c.1 = n
    · have hcm : c.2 = cmDef := by
        rw [lookupName, if_pos hk] at hlk
        exact Option.some.inj hlk
      obtain ⟨t, ht⟩ :=
        extendComputed_exists_append cs (env ++ [(c.1, applyFill c.2.fillna (evalC c.2.expr env))])
      refine ⟨evalC c.2.expr env, ?_⟩
      show getV (extendComputed cs (env ++ [(c.1, applyFill c.2.fillna (evalC c.2.expr env))])) n = _
      rw [ht, getV_append_of_mem n _ _ (by simp [hk]), getV_append_of_not_mem n _ _ hnm,
        getV, if_pos hk, hcm]
    · have hlk' : lookupName n cs = some cmDef := by
        rw [lookupName, if_neg hk] at hlk
        exact hlk
      have hnm' :
          n ∉ (env ++ [(c.1, applyFill c.2.fillna (evalC c.2.expr env))]).map Prod.fst := by
        simp only [List.map_append, List.mem_append]
        rintro (h1 | h2)
        · exact hnm h1
        · simp at h2
          exact hk h2.symm
      exact ih _ hlk' hnm'

/-- Sorting does not change which rows occur. -/
theorem mem_sortStage {spec : List (String × Dir)} {t : Table} {r : Row} :
    r ∈ sortStage spec t ↔ r ∈ t := by
  cases spec with
  | nil => exact Iff.rfl
  | cons p rest => exact List.mem_insertionSort (rowLEr (p :: rest))

/-- The having step only removes rows. -/
theorem mem_stageHaving {hv : Option HavingPred} {t : Table} {r : Row}
    (h : r ∈ stageHaving hv t) : r ∈ t := by
  cases hv with
  | none => exact h
  | some p => exact List.mem_of_mem_filter h

/-- The null-drop step only removes rows. -/
theorem mem_stageDropNull {flag : Bool} {dims : List String} {t : Table} {r : Row}
    (h : r ∈ stageDropNull flag dims t) : r ∈ t := by
  cases flag with
  | false => exact h
  | true => exact List.mem_of_mem_filter h

/-- Projection preserves the reading of every projected column. -/
theorem projectRow_getV (r0 : Row) (n : String) :
    ∀ cols : List String, n ∈ cols → getV (projectRow cols r0) n = getV r0 n := by
  intro cols h
  induction cols with
  | nil => simp at h
  | cons c cols ih =>
    show getV ((c, getV r0 c) :: projectRow cols r0) n = _
    rw [getV]
    by_cases hk : c = n
    · rw [if_pos hk, hk]
    · rw [if_neg hk]
      apply ih
      rcases List.mem_cons.mp h with h1 | h2
      · exact absurd h1.symm hk
      · exact h2

/-- C3: in any query output, a computed metric defined with a `fillna` value
never yields a null cell — every cell of its column is numeric, even when the
underlying arithmetic is undefined (0/0) — while a computed metric defined
without `fillna` yields either a numeric cell or a null cell (undefined
arithmetic surfaces as null, never as an error aborting the query). -/
theorem computed_metric_fillna (hc : Hypercube) (crit : Criteria) (qn : String)
    (q : Query) (cm : String) (cmDef : ComputedMetric) (out : Table)
    (hq : lookupName qn hc.queries = some q)
    (hcm : cm ∈ q.computed_metrics)
    (hreg : lookupName cm hc.computed_metrics = some cmDef)
    (hd : cm ∉ q.dimensions)
    (hm : cm ∉ hc.metrics.map Prod.fst)
    (hout : hc.executeWith crit qn = some out) :
    ∀ r ∈ out,
      (∀ f : ℚ, cmDef.fillna = some f → ∃ v : ℚ, getV r cm = Value.num v) ∧
        (cmDef.fillna = none → getV r cm = Value.null ∨ ∃ v : ℚ, getV r cm = Value.num v) := by
  intro r hr
  unfold Hypercube.executeWith at hout
  rw [hq] at hout
  have hout' : executeQuery hc.baseRows hc.metrics hc.computed_metrics crit q = out :=
    Option.some.inj hout
  rw [← hout'] at hr
  rw [executeQuery] at hr
  obtain ⟨r1, hr1, hproj⟩ := List.mem_map.mp hr
  have hr2 : r1 ∈ stageHaving q.having
      (rowsBeforeHaving hc.baseRows hc.metrics hc.computed_metrics crit q) :=
    mem_sortStage.mp hr1
  have hr3 : r1 ∈ rowsBeforeHaving hc.baseRows hc.metrics hc.computed_metrics crit q :=
    mem_stageHaving hr2
  rw [rowsBeforeHaving] at hr3
  have hr4 : r1 ∈ fullRows hc.metrics hc.computed_metrics q.dimensions
      (hc.baseRows.filter (matchesCriteria crit)) :=
    mem_stageDropNull hr3
  rw [fullRows] at hr4
  obtain ⟨g, hg, hr0⟩ := List.mem_map.mp hr4
  have hcols : cm ∈ q.dimensions ++ q.metrics ++ q.computed_metrics := by
    simp [hcm]
  have h1 : getV r cm = getV r1 cm := by
    rw [← hproj, projectRow_getV r1 cm _ hcols]
  have hdk : cm ∉ (q.dimensions.zip g.1).map Prod.fst := by
    intro hmem
    obtain ⟨pr, hpr, hfst⟩ := List.mem_map.mp hmem
    exact hd (hfst ▸ (List.of_mem_zip hpr).1)
  have h2 : getV r1 cm =
      getV (extendComputed hc.computed_metrics (metricEnv hc.metrics g.2)) cm := by
    rw [← hr0]
    exact getV_append_of_not_mem cm _ _ hdk
  have hek : cm ∉ (metricEnv hc.metrics g.2).map Prod.fst := by
    intro hmem
    obtain ⟨pr, hpr, hfst⟩ := List.mem_map.mp hmem
    obtain ⟨p, hp, hf⟩ := List.mem_map.mp hpr
    apply hm
    apply List.mem_map.mpr
    refine ⟨p, hp, ?_⟩
    rw [← hfst, ← hf]
  obtain ⟨oq, hoq⟩ :=
    extendComputed_getV hc.computed_metrics cm cmDef (metricEnv hc.metrics g.2) hreg hek
  constructor
  · intro f hf
    cases oq with
    | some v => exact ⟨v, by rw [h1, h2, hoq]; rfl⟩
    | none => exact ⟨f, by rw [h1, h2, hoq, hf]; rfl⟩
  · intro hnone
    cases oq with
    | some v => exact Or.inr ⟨v, by rw [h1, h2, hoq]; rfl⟩
    | none => exact Or.inl (by rw [h1, h2, hoq, hnone]; rfl)

/-- Witness for C3 at `fnCube`: the `fillna=0` computed metric `CM` yields a
numeric cell on a 0/0 group, while the fill-free `CN` yields null there. -/
theorem computed_metric_fillna_witness :
    (lookupName "Q" fnCube.queries = some fnQuery) ∧
      (fnCube.executeWith [] "Q" = some [fnRow]) ∧
      (∃ v : ℚ, getV fnRow "CM" = Value.num v) ∧
      getV fnRow "CN" = Value.null := by
  have hout : fnCube.executeWith [] "Q" = some [fnRow] := by
    simp [Hypercube.executeWith, lookupName, executeQuery, rowsBeforeHaving, stageDropNull,
      stageHaving, sortStage, fullRows, groupRows, dedupFirst, dedupFirstAux, keyOf,
      matchesCriteria, metricEnv, extendComputed, applyAgg, evalRow, evalC, applyFill,
      projectRow, getV, toQ, fnCube, fnQuery, fnRow]
  refine ⟨rfl, hout, ?_, rfl⟩
  exact ((computed_metric_fillna fnCube [] "Q" fnQuery "CM"
    ⟨CExpr.div (CExpr.ref "R") (CExpr.ref "R"), some 0⟩ [fnRow] rfl (by decide) rfl
    (by decide) (by decide) hout) fnRow (by simp)).1 0 rfl

/-- An empty criteria set restricts nothing. -/
theorem filter_matchesCriteria_nil (t : Table) : t.filter (matchesCriteria []) = t :=
  List.filter_eq_self.mpr fun _ _ => rfl

/-- First-occurrence deduplication commutes with an injective map. -/
theorem dedupFirstAux_map {α β : Type} [DecidableEq α] [DecidableEq β] (f : α → β)
    (hf : Function.Injective f) :
    ∀ (l seen : List α), dedupFirstAux (seen.map f) (l.map f) = (dedupFirstAux seen l).map f := by
  intro l
  induction l with
  | nil => intro seen; rfl
  | cons x l ih =>
    intro seen
    show dedupFirstAux (seen.map f) (f x :: l.map f) = _
    rw [dedupFirstAux, dedupFirstAux]
    by_cases hx : x ∈ seen
    · rw [if_pos (List.mem_map_of_injective hf |>.mpr hx), if_pos hx, ih]
    · rw [if_neg (fun hm => hx ((List.mem_map_of_injective hf).mp hm)), if_neg hx]
      have := ih (x :: seen)
      simp only [List.map_cons] at this
      rw [this]
      rfl

/-- First-occurrence deduplication commutes with an injective map. -/
theorem dedupFirst_map {α β : Type} [DecidableEq α] [DecidableEq β] (f : α → β)
    (hf : Function.Injective f) (l : List α) :
    dedupFirst (l.map f) = (dedupFirst l).map f :=
  dedupFirstAux_map f hf l []

/-- When a partial function is defined on every element, `filterMap` is a
plain map of the extracted values. -/
theorem filterMap_eq_map_of_isSome {α β : Type} (f : α → Option β) (d0 : β) :
    ∀ l : List α, (∀ x ∈ l, (f x).isSome = true) →
      l.filterMap f = l.map (fun x => (f x).getD d0) := by
  intro l hl
  induction l with
  | nil => rfl
  | cons x l ih =>
    cases hfx : f x with
    | none =>
      have := hl x (List.mem_cons_self x l)
      rw [hfx] at this
      simp at this
    | some b =>
      rw [List.filterMap_cons, hfx, List.map_cons, hfx]
      have : l.filterMap f = l.map (fun x => (f x).getD d0) :=
        ih (fun y hy => hl y (List.mem_cons_of_mem x hy))
      rw [this]
      rfl

/-- C2: over the equijoin of two tables on one key, a query with one summed
metric grouped by one dimension and no active filter returns exactly one row
per distinct dimension value present in the joined row set, in order of first
occurrence, whose metric value is the arithmetic sum of the row-level
expression over the rows of that group; value groups with no joined rows do
not appear. -/
theorem grouped_sum_query (cols : List String) (t1 t2 : Table) (k d mn qn : String)
    (e : RowExpr) (hdm : d ≠ mn)
    (hnum : ∀ r ∈ joinOn t1 t2 k, (toQ (evalRow e r)).isSome = true) :
    (singleJoinCube cols t1 t2 k d mn qn e).query qn =
      some ((dedupFirst ((joinOn t1 t2 k).map (fun r => getV r d))).map (fun v =>
        [(d, v),
         (mn, Value.num ((((joinOn t1 t2 k).filter (fun r => decide (getV r d = v))).map
            (fun r => (toQ (evalRow e r)).getD 0)).sum))])) := by
  unfold Hypercube.query
  have hst :
      (singleJoinCube cols t1 t2 k d mn qn e).stateCriteria currentStateName = [] := by
    simp [Hypercube.stateCriteria, currentStateName, singleJoinCube, lookupName]
  rw [hst]
  unfold Hypercube.executeWith
  have hlk : lookupName qn (singleJoinCube cols t1 t2 k d mn qn e).queries =
      some (singleMetricGroupQuery d mn) := by
    simp [singleJoinCube, lookupName]
  rw [hlk, Option.map_some']
  congr 1
  rw [executeQuery, rowsBeforeHaving]
  simp only [singleJoinCube, singleMetricGroupQuery, stageDropNull, stageHaving, sortStage,
    Bool.false_eq_true, if_false, List.append_nil, List.singleton_append]
  rw [filter_matchesCriteria_nil, fullRows, groupRows, List.map_map, List.map_map]
  have hkey : keyOf [d] = (fun v : Value => [v]) ∘ (fun r : Row => getV r d) := by
    funext r
    rfl
  rw [hkey, ← List.map_map _ _ (joinOn t1 t2 k)]
  have hinj : Function.Injective (fun v : Value => [v]) := by
    intro a b h
    simpa using h
  rw [dedupFirst_map _ hinj, List.map_map]
  apply List.map_congr_left
  intro v hv
  have hfilter :
      (joinOn t1 t2 k).filter (fun r => decide (keyOf [d] r = [v])) =
        (joinOn t1 t2 k).filter (fun r => decide (getV r d = v)) := by
    apply List.filter_congr
    intro r _
    apply decide_eq_decide.mpr
    simp [keyOf]
  simp only [Function.comp_apply, hfilter]
  have hsum :
      ((joinOn t1 t2 k).filter (fun r => decide (getV r d = v))).filterMap
          (toQ ∘ evalRow e) =
        ((joinOn t1 t2 k).filter (fun r => decide (getV r d = v))).map
          (fun r => (toQ (evalRow e r)).getD 0) :=
    filterMap_eq_map_of_isSome _ 0 _
      (fun r hr => hnum r (List.mem_of_mem_filter hr))
  simp only [metricEnv, extendComputed, List.foldl_nil, List.map_cons, List.map_nil,
    applyAgg, hsum]
  simp [projectRow, getV, hdm, hsum]

set_option maxHeartbeats 1000000 in
/-- Witness for C2 at the spec's three-row fixture: Revenue by Category over
Sales joined with Product on ProductID gives one row per category with the
hand-computed totals 25 and 12. -/
theorem grouped_sum_query_witness :
    ("Category" ≠ "Revenue") ∧
      (∀ r ∈ joinOn salesT productT "ProductID", (toQ (evalRow revExpr r)).isSome = true) ∧
      (singleJoinCube [] salesT productT "ProductID" "Category" "Revenue" "Q" revExpr).query
          "Q" =
        some [[("Category", Value.str "Bikes"), ("Revenue", Value.num 25)],
              [("Category", Value.str "Clothing"), ("Revenue", Value.num 12)]] := by
  have h := grouped_sum_query [] salesT productT "ProductID" "Category" "Revenue" "Q" revExpr
    (by decide) (by decide)
  refine ⟨by decide, by decide, ?_⟩
  rw [h]
  simp [joinOn, salesT, productT, revExpr, dedupFirst, dedupFirstAux, getV, evalRow, numBin, toQ]
  norm_num

/-- Three-way comparison swaps with its arguments. -/
theorem cmpOf_swap {α : Type} [LinearOrder α] (a b : α) : cmpOf a b = (cmpOf b a).swap := by
  unfold cmpOf
  rcases lt_trichotomy a b with h | h | h
  · simp [h, lt_asymm h, Ordering.swap]
  · subst h
    simp [lt_irrefl, Ordering.swap]
  · simp [h, lt_asymm h, Ordering.swap]

/-- An equal comparison means equal elements. -/
theorem cmpOf_eq {α : Type} [LinearOrder α] {a b : α} (h : cmpOf a b = Ordering.eq) :
    a = b := by
  rcases lt_trichotomy a b with h1 | h1 | h1
  · rw [cmpOf, if_pos h1] at h
    exact Ordering.noConfusion h
  · exact h1
  · rw [cmpOf, if_neg (lt_asymm h1), if_pos h1] at h
    exact Ordering.noConfusion h

/-- A strictly-less comparison means a strictly smaller element. -/
theorem cmpOf_lt {α : Type} [LinearOrder α] {a b : α} (h : cmpOf a b = Ordering.lt) :
    a < b := by
  rcases lt_trichotomy a b with h1 | h1 | h1
  · exact h1
  · subst h1
    rw [cmpOf, if_neg (lt_irrefl a), if_neg (lt_irrefl a)] at h
    exact Ordering.noConfusion h
  · rw [cmpOf, if_neg (lt_asymm h1), if_pos h1] at h
    exact Ordering.noConfusion h

/-- A strictly smaller element compares strictly less. -/
theorem lt_cmpOf {α : Type} [LinearOrder α] {a b : α} (h : a < b) :
    cmpOf a b = Ordering.lt := by
  unfold cmpOf
  rw [if_pos h]

/-- A comparison that is not greater means a less-or-equal element. -/
theorem cmpOf_ne_gt {α : Type} [LinearOrder α] {a b : α} (h : cmpOf a b ≠ Ordering.gt) :
    a ≤ b := by
  by_contra hlt
  apply h
  unfold cmpOf
  rw [if_neg (lt_asymm (not_le.mp hlt)), if_pos (not_le.mp hlt)]

/-- Value comparison swaps with its arguments. -/
theorem valueCmp_swap (a b : Value) : valueCmp a b = (valueCmp b a).swap := by
  cases a <;> cases b <;> simp only [valueCmp] <;> first
  | rfl
  | exact cmpOf_swap _ _

/-- Equal value comparison means equal values. -/
theorem valueCmp_eq : ∀ {a b : Value}, valueCmp a b = Ordering.eq → a = b := by
  intro a b h
  cases a <;> cases b <;> simp only [valueCmp] at h <;> first
  | rfl
  | exact Ordering.noConfusion h
  | exact congrArg Value.num (cmpOf_eq h)
  | exact congrArg Value.str (cmpOf_eq h)

/-- Value comparison is transitive in its strict part. -/
theorem valueCmp_lt_trans :
    ∀ {a b c : Value}, valueCmp a b = Ordering.lt → valueCmp b c = Ordering.lt →
      valueCmp a c = Ordering.lt := by
  intro a b c h1 h2
  cases a <;> cases b <;> cases c <;> simp only [valueCmp] at h1 h2 ⊢ <;> first
  | rfl
  | exact Ordering.noConfusion h1
  | exact Ordering.noConfusion h2
  | exact lt_cmpOf (lt_trans (cmpOf_lt h1) (cmpOf_lt h2))

/-- A value compares equal to itself. -/
theorem valueCmp_refl (a : Value) : valueCmp a a = Ordering.eq := by
  cases a <;> simp [valueCmp, cmpOf, lt_irrefl]

/-- One-column comparison swaps with its row arguments. -/
theorem colCmp_swap (p : String × Dir) (r1 r2 : Row) :
    colCmp p r1 r2 = (colCmp p r2 r1).swap := by
  obtain ⟨c, dir⟩ := p
  cases dir <;> exact valueCmp_swap _ _

/-- Rows comparing equal on a column carry equal values there. -/
theorem colCmp_eq_val {p : String × Dir} {r1 r2 : Row} (h : colCmp p r1 r2 = Ordering.eq) :
    getV r1 p.1 = getV r2 p.1 := by
  obtain ⟨c, dir⟩ := p
  cases dir <;> simp only [colCmp] at h
  · exact valueCmp_eq h
  · exact (valueCmp_eq h).symm

/-- One-column comparison is transitive in its strict part. -/
theorem colCmp_lt_trans {p : String × Dir} {r1 r2 r3 : Row}
    (h1 : colCmp p r1 r2 = Ordering.lt) (h2 : colCmp p r2 r3 = Ordering.lt) :
    colCmp p r1 r3 = Ordering.lt := by
  obtain ⟨c, dir⟩ := p
  cases dir <;> simp only [colCmp] at h1 h2 ⊢
  · exact valueCmp_lt_trans h1 h2
  · exact valueCmp_lt_trans h2 h1

/-- One-column comparison depends only on the compared column's values. -/
theorem colCmp_congr {p : String × Dir} {r1 r2 r1' r2' : Row}
    (e1 : getV r1 p.1 = getV r1' p.1) (e2 : getV r2 p.1 = getV r2' p.1) :
    colCmp p r1 r2 = colCmp p r1' r2' := by
  obtain ⟨c, dir⟩ := p
  simp only at e1 e2
  cases dir <;> simp only [colCmp] <;> rw [e1, e2]

/-- Row comparison swaps with its arguments. -/
theorem rowCmp_swap : ∀ (spec : List (String × Dir)) (r1 r2 : Row),
    rowCmp spec r1 r2 = (rowCmp spec r2 r1).swap := by
  intro spec
  induction spec with
  | nil => intro r1 r2; rfl
  | cons p rest ih =>
    intro r1 r2
    rw [rowCmp, rowCmp, colCmp_swap p r1 r2]
    cases hc : colCmp p r2 r1 with
    | lt => rfl
    | eq => exact ih r1 r2
    | gt => rfl

/-- Row comparison on a single sort key is that key's comparison. -/
theorem rowCmp_single (p : String × Dir) (r1 r2 : Row) :
    rowCmp [p] r1 r2 = colCmp p r1 r2 := by
  cases hc : colCmp p r1 r2 <;> simp [rowCmp, hc]

/-- The non-strict row order is transitive. -/
theorem rowCmp_ne_gt_trans : ∀ (spec : List (String × Dir)) {r1 r2 r3 : Row},
    rowCmp spec r1 r2 ≠ Ordering.gt → rowCmp spec r2 r3 ≠ Ordering.gt →
      rowCmp spec r1 r3 ≠ Ordering.gt := by
  intro spec
  induction spec with
  | nil =>
    intro r1 r2 r3 _ _
    simp [rowCmp]
  | cons p rest ih =>
    intro r1 r2 r3 h12 h23
    rw [rowCmp] at h12 h23 ⊢
    cases c12 : colCmp p r1 r2 with
    | gt => rw [c12] at h12; exact absurd rfl h12
    | lt =>
      cases c23 : colCmp p r2 r3 with
      | gt => rw [c23] at h23; exact absurd rfl h23
      | lt =>
        rw [colCmp_lt_trans c12 c23]
        exact fun hcon => Ordering.noConfusion hcon
      | eq =>
        have hv := colCmp_eq_val c23
        have he : colCmp p r1 r3 = colCmp p r1 r2 := colCmp_congr rfl hv.symm
        rw [he, c12]
        exact fun hcon => Ordering.noConfusion hcon
    | eq =>
      rw [c12] at h12
      have hv := colCmp_eq_val c12
      cases c23 : colCmp p r2 r3 with
      | gt => rw [c23] at h23; exact absurd rfl h23
      | lt =>
        have he : colCmp p r1 r3 = colCmp p r2 r3 := colCmp_congr hv rfl
        rw [he, c23]
        exact fun hcon => Ordering.noConfusion hcon
      | eq =>
        rw [c23] at h23
        have he : colCmp p r1 r3 = colCmp p r2 r3 := colCmp_congr hv rfl
        rw [he, c23]
        exact ih h12 h23

/-- Inserting an element of the selected class puts it before every selected
element of the list, provided it precedes them all in the order. -/
theorem filter_orderedInsert_pos {α : Type} (r : α → α → Prop) [DecidableRel r]
    (p : α → Bool) (a : α) (h1 : p a = true) :
    ∀ l : List α, (∀ b ∈ l, p b = true → r a b) →
      (List.orderedInsert r a l).filter p = a :: l.filter p := by
  intro l
  induction l with
  | nil =>
    intro _
    simp [List.orderedInsert, h1]
  | cons b l ih =>
    intro hcl
    rw [List.orderedInsert]
    by_cases hr : r a b
    · rw [if_pos hr]
      simp [List.filter_cons, h1]
    · rw [if_neg hr]
      cases hpb : p b with
      | true => exact absurd (hcl b (List.mem_cons_self b l) hpb) hr
      | false =>
        rw [List.filter_cons, List.filter_cons, hpb]
        simp only [Bool.false_eq_true, if_false]
        exact ih (fun x hx hpx => hcl x (List.mem_cons_of_mem b hx) hpx)

/-- Inserting an element outside the selected class leaves the class's
subsequence unchanged. -/
theorem filter_orderedInsert_neg {α : Type} (r : α → α → Prop) [DecidableRel r]
    (p : α → Bool) (a : α) (h1 : p a = false) :
    ∀ l : List α, (List.orderedInsert r a l).filter p = l.filter p := by
  intro l
  induction l with
  | nil => simp [List.orderedInsert, h1]
  | cons b l ih =>
    rw [List.orderedInsert]
    by_cases hr : r a b
    · rw [if_pos hr]
      simp [List.filter_cons, h1]
    · rw [if_neg hr]
      rw [List.filter_cons, List.filter_cons]
      cases hpb : p b <;> simp [hpb, ih]

/-- Insertion sort is stable: the subsequence of any class of mutually
order-equivalent elements is unchanged. -/
theorem filter_insertionSort {α : Type} (r : α → α → Prop) [DecidableRel r]
    (p : α → Bool) (hcl : ∀ x y, p x = true → p y = true → r x y) :
    ∀ l : List α, (List.insertionSort r l).filter p = l.filter p := by
  intro l
  induction l with
  | nil => rfl
  | cons b l ih =>
    rw [List.insertionSort]
    cases hpb : p b with
    | true =>
      rw [filter_orderedInsert_pos r p b hpb _ (fun y _ hpy => hcl b y hpb hpy), ih,
        List.filter_cons, hpb]
      simp
    | false =>
      rw [filter_orderedInsert_neg r p b hpb, ih, List.filter_cons, hpb]
      simp

/-- Filtering a mapped list filters the underlying list. -/
theorem filter_of_map {α β : Type} (f : α → β) (p : β → Bool) :
    ∀ l : List α, (l.map f).filter p = (l.filter (fun x => p (f x))).map f := by
  intro l
  induction l with
  | nil => rfl
  | cons x l ih =>
    rw [List.map_cons, List.filter_cons, List.filter_cons]
    cases hp : p (f x) <;> simp [hp, ih]

/-- A defined numeric projection comes from a numeric cell. -/
theorem toQ_some {v : Value} {q : ℚ} (h : toQ v = some q) : v = Value.num q := by
  cases v <;> simp [toQ] at h
  rw [h]

/-- C5: with sort specification `[("Revenue", desc)]`, the Revenue column of
the query result is non-increasing, and for every Revenue value the
subsequence of result rows carrying it equals the corresponding subsequence
of the unsorted result — ties keep their input group order (stability). -/
theorem sort_desc_stable (hc : Hypercube) (crit : Criteria) (qn : String) (q : Query)
    (out : Table)
    (hq : lookupName qn hc.queries = some q)
    (hsort : q.sort = [("Revenue", Dir.desc)])
    (hrev : "Revenue" ∈ q.dimensions ++ q.metrics ++ q.computed_metrics)
    (hout : hc.executeWith crit qn = some out)
    (hnum : ∀ r ∈ out, (toQ (getV r "Revenue")).isSome = true) :
    List.Pairwise (fun r1 r2 =>
        (toQ (getV r2 "Revenue")).getD 0 ≤ (toQ (getV r1 "Revenue")).getD 0) out ∧
      ∀ v : Value, out.filter (fun r => decide (getV r "Revenue" = v)) =
        (queryUnsorted hc.baseRows hc.metrics hc.computed_metrics crit q).filter
          (fun r => decide (getV r "Revenue" = v)) := by
  unfold Hypercube.executeWith at hout
  rw [hq] at hout
  have hout' : executeQuery hc.baseRows hc.metrics hc.computed_metrics crit q = out :=
    Option.some.inj hout
  have hview : out =
      (List.insertionSort (rowLEr [("Revenue", Dir.desc)])
        (stageHaving q.having
          (rowsBeforeHaving hc.baseRows hc.metrics hc.computed_metrics crit q))).map
        (projectRow (q.dimensions ++ q.metrics ++ q.computed_metrics)) := by
    rw [← hout', executeQuery, hsort]
    rfl
  subst hview
  haveI hTot : IsTotal Row (rowLEr [("Revenue", Dir.desc)]) := ⟨by
    intro a b
    by_cases h : rowCmp [("Revenue", Dir.desc)] a b = Ordering.gt
    · right
      show rowCmp [("Revenue", Dir.desc)] b a ≠ Ordering.gt
      rw [rowCmp_swap, h]
      decide
    · exact Or.inl h⟩
  haveI hTrans : IsTrans Row (rowLEr [("Revenue", Dir.desc)]) :=
    ⟨fun a b c => rowCmp_ne_gt_trans [("Revenue", Dir.desc)]⟩
  have hsorted :
      List.Sorted (rowLEr [("Revenue", Dir.desc)])
        (List.insertionSort (rowLEr [("Revenue", Dir.desc)])
          (stageHaving q.having
            (rowsBeforeHaving hc.baseRows hc.metrics hc.computed_metrics crit q))) :=
    List.sorted_insertionSort _ _
  constructor
  · rw [List.pairwise_map]
    refine List.Pairwise.imp_of_mem ?_ hsorted
    intro x y hx hy hxy
    have hgx := projectRow_getV x "Revenue" (q.dimensions ++ q.metrics ++ q.computed_metrics) hrev
    have hgy := projectRow_getV y "Revenue" (q.dimensions ++ q.metrics ++ q.computed_metrics) hrev
    have hnx := hnum _ (List.mem_map_of_mem (projectRow (q.dimensions ++ q.metrics ++ q.computed_metrics)) hx)
    have hny := hnum _ (List.mem_map_of_mem (projectRow (q.dimensions ++ q.metrics ++ q.computed_metrics)) hy)
    rw [hgx] at hnx
    rw [hgy] at hny
    obtain ⟨qx, hqx⟩ := Option.isSome_iff_exists.mp hnx
    obtain ⟨qy, hqy⟩ := Option.isSome_iff_exists.mp hny
    have hvx : getV x "Revenue" = Value.num qx := toQ_some hqx
    have hvy : getV y "Revenue" = Value.num qy := toQ_some hqy
    have hcmp : cmpOf qy qx ≠ Ordering.gt := by
      have hxy' := hxy
      simp only [rowLEr] at hxy'
      rw [rowCmp_single] at hxy'
      simp only [colCmp, hvx, hvy, valueCmp] at hxy'
      exact hxy'
    have hle : qy ≤ qx := cmpOf_ne_gt hcmp
    rw [hgx, hgy, hvx, hvy]
    simpa [toQ] using hle
  · intro v
    rw [queryUnsorted, filter_of_map, filter_of_map]
    congr 1
    apply filter_insertionSort
    intro x y hpx hpy
    have hgx := projectRow_getV x "Revenue" (q.dimensions ++ q.metrics ++ q.computed_metrics) hrev
    have hgy := projectRow_getV y "Revenue" (q.dimensions ++ q.metrics ++ q.computed_metrics) hrev
    have hx : getV x "Revenue" = v := by
      rw [← hgx]
      exact of_decide_eq_true hpx
    have hy : getV y "Revenue" = v := by
      rw [← hgy]
      exact of_decide_eq_true hpy
    show rowCmp [("Revenue", Dir.desc)] x y ≠ Ordering.gt
    rw [rowCmp_single]
    simp only [colCmp]
    rw [hy, hx, valueCmp_refl]
    decide

set_option maxHeartbeats 1000000 in
/-- Witness for C5 at `sortCube`: Revenue 5, 5, 1 is non-increasing, and the
two tied rows keep their group order (b before c). -/
theorem sort_desc_stable_witness :
    (lookupName "Q" sortCube.queries = some sortQuery) ∧
      (sortCube.executeWith [] "Q" = some sortOut) ∧
      List.Pairwise (fun r1 r2 =>
        (toQ (getV r2 "Revenue")).getD 0 ≤ (toQ (getV r1 "Revenue")).getD 0) sortOut ∧
      sortOut.filter (fun r => decide (getV r "Revenue" = Value.num 5)) =
        (queryUnsorted sortCube.baseRows sortCube.metrics sortCube.computed_metrics []
            sortQuery).filter
          (fun r => decide (getV r "Revenue" = Value.num 5)) := by
  have hout : sortCube.executeWith [] "Q" = some sortOut := by
    simp [Hypercube.executeWith, lookupName, executeQuery, rowsBeforeHaving, stageDropNull,
      stageHaving, sortStage, fullRows, groupRows, dedupFirst, dedupFirstAux, keyOf,
      matchesCriteria, metricEnv, extendComputed, applyAgg, evalRow, evalC, applyFill,
      projectRow, getV, toQ, sortCube, sortQuery, sortOut, List.insertionSort,
      List.orderedInsert, rowLEr, rowCmp, colCmp, valueCmp, cmpOf]
  have h := sort_desc_stable sortCube [] "Q" sortQuery sortOut rfl rfl (by decide) hout
    (by decide)
  exact ⟨rfl, hout, h.1, h.2 (Value.num 5)⟩
